import Mathlib

/-!
Shallow embedding of the `gcbmgr`-style release script (src/unnamed/part_000)
and of the generated deepcopy package (src/apis/krel/v1alpha1).

The script is a command dispatcher over five subcommands (`list`, `staged`,
`tail`/`stream`, `stage`, `release`).  External collaborator APIs (build-job
listing/description/log-streaming/submission, object-storage listing,
branch-to-toolchain resolution, last-published registry) are modelled as an
oracle environment plus an explicit trace of calls; the shell string
operations are modelled character-by-character.
-/

namespace Gcb

/-! ### Shell string operations -/

/-- Bash `${state^^}`: ASCII upper-casing of every character. -/
def shellUpper (s : String) : String := ⟨s.data.map Char.toUpper⟩

/-- Bash `${GCP_USER,,}`: ASCII lower-casing of every character. -/
def shellLower (s : String) : String := ⟨s.data.map Char.toLower⟩

/-- Replace the first occurrence of character `t` by the string `r`
(bash `${var/t/r}` with a single-character pattern). -/
def replaceFirstAux (t : Char) (r : List Char) : List Char → List Char
  | [] => []
  | c :: cs => if c = t then r ++ cs else c :: replaceFirstAux t r cs

/-- String wrapper for `replaceFirstAux`. -/
def replaceFirst (s : String) (t : Char) (r : String) : String :=
  ⟨replaceFirstAux t r.data s.data⟩

/-- Replace every occurrence of character `t` by the string `r`
(bash `${var//t/r}`; used only for spec-side readings of the claims). -/
def replaceAllAux (t : Char) (r : List Char) : List Char → List Char
  | [] => []
  | c :: cs => (if c = t then r else [c]) ++ replaceAllAux t r cs

/-- String wrapper for `replaceAllAux`. -/
def replaceAll (s : String) (t : Char) (r : String) : String :=
  ⟨replaceAllAux t r.data s.data⟩

/-- Bash `${var%%suff}` with a glob-free pattern: drop the literal suffix when
present, otherwise leave the string unchanged. -/
def stripLitSuffix (s suff : String) : String :=
  if suff.data.isSuffixOf s.data then ⟨s.data.take (s.data.length - suff.data.length)⟩ else s

/-- One character of the build-id character class `[a-f0-9-]`. -/
def isHexHyphenChar (c : Char) : Bool :=
  ('0' ≤ c && c ≤ '9') || ('a' ≤ c && c ≤ 'f') || c = '-'

/-- Does the character list contain a run of 32 consecutive characters from
`[a-f0-9-]`?  This is the unanchored ERE match `[[ $x =~ [a-f0-9-]{32} ]]`. -/
def hasHexRunAux : List Char → Bool
  | [] => false
  | c :: cs =>
    (32 ≤ (c :: cs).length && ((c :: cs).take 32).all isHexHyphenChar) || hasHexRunAux cs

/-- Bash `[[ $build_id =~ [a-f0-9-]{32} ]]`: unanchored match of the build-id shape. -/
def matchesBuildId (s : String) : Bool := hasHexRunAux s.data

/-! ### Derivations from MAIN -/

/-- GCP_USER_TAG derivation (MAIN): lower-case the account, strip a literal
`@google.com` suffix, replace the first `@` with `-at-`, replace the first
`.` with `-`. -/
def gcp_user_tag (gcpUser : String) : String :=
  let u := shellLower gcpUser
  let t1 := stripLitSuffix u "@google.com"
  let t2 := replaceFirst t1 '@' "-at-"
  replaceFirst t2 '.' "-"

/-- BUILD_POINT derivation (MAIN): `--build-at-head` presets `HEAD`; an
explicit buildversion overrides it with its first `+` turned into `-`;
otherwise the `find_green_build` sentinel is used. -/
def derive_build_point (flagsBuildversion : String) (flagsBuildAtHead : Bool) : String :=
  let bp := if flagsBuildAtHead then "HEAD" else ""
  if flagsBuildversion ≠ "" then replaceFirst flagsBuildversion '+' "-"
  else if bp = "" then "find_green_build" else bp

/-! ### Jobs and the external-call trace -/

/-- One row of `gcloud builds list` output (header stripped), as read by the
`while read id time elapsed source images status` loop. -/
structure Job where
  id : String
  startTime : String
  elapsed : String
  sourceRef : String
  images : String
  status : String
deriving DecidableEq

/-- The external collaborator APIs the script invokes (spec section 6):
build-job listing, build-job description, log streaming, submission,
object-storage listing, branch-to-toolchain-version resolution, and the
last-published-release registry.  Reads of local configuration (authenticated
account, env defaults) are not collaborator calls. -/
inductive ExtCall where
  | buildsList
  | buildsDescribe (id : String)
  | buildsLog (id : String)
  | buildsSubmit (yamlFile asyncFlag diskSize : String) (subs : List (String × String))
  | gsutilLs (path : String)
  | kubecrossVersion (branch dflt : String)
  | lastReleases
deriving DecidableEq

/-! ### list_jobs -/

/-- The `while read` loop of `list_jobs`: skip jobs whose status differs from a
non-empty (upper-cased) filter, emit matches, and break once the counter
reaches 5 (the break test follows the emit, so the fifth match is emitted). -/
def list_jobs_loop (state : String) : List Job → Nat → List Job
  | [], _ => []
  | j :: rest, counter =>
    if state ≠ "" ∧ j.status ≠ state then list_jobs_loop state rest counter
    else if 5 ≤ counter + 1 then [j]
    else j :: list_jobs_loop state rest (counter + 1)

/-- Function `list_jobs`: upper-case the filter, run the loop over the rows returned by
`gcloud builds list`, and describe each emitted job to fetch its tags.
Returns the emitted rows and the external calls made. -/
def list_jobs (state : String) (jobs : List Job) : List Job × List ExtCall :=
  let rows := list_jobs_loop (shellUpper state) jobs 0
  (rows, ExtCall.buildsList :: rows.map (fun j => ExtCall.buildsDescribe j.id))

/-! ### stream_job_log -/

/-- Function `stream_job_log`: the build id is the explicit argument or, when the
argument is empty, the id resolved by the external
`gcloud builds list | awk` pipeline (an oracle string `resolved`).  The id is
validated against the unanchored `[a-f0-9-]{32}` pattern; on failure the
function returns 1 without contacting the log-streaming API. -/
def stream_job_log (arg resolved : String) : Bool × List ExtCall :=
  let pre : List ExtCall := if arg = "" then [ExtCall.buildsList] else []
  let build_id := if arg = "" then resolved else arg
  if matchesBuildId build_id = false then (false, pre)
  else (true, pre ++ [ExtCall.buildsLog build_id])

/-! ### list_staged_builds -/

/-- Console output of `list_staged_builds`: the per-branch last-release lines
and the staged-build listing lines. -/
structure StagedOutput where
  releaseLines : List String
  stagedLines : List String
deriving DecidableEq

/-- Function `list_staged_builds`: query the last-published registry, render its keys
sorted (the external `sort -h`, modelled by sorting with the comparator
`sortLe`), then list `gs://<bucket>/stage` for the project bucket and, when
set, the per-operator bucket, echoing each listing verbatim. -/
def list_staged_builds (lastRel : List (String × String))
    (sortLe : String → String → Bool) (bucket : String) (userBucket : Option String)
    (listing : String → List String) : StagedOutput × List ExtCall :=
  let keys := List.insertionSort (fun a b => sortLe a b = true) (lastRel.map Prod.fst)
  let releaseLines := keys.map (fun k => k ++ ": " ++ ((lastRel.lookup k).getD ""))
  let buckets := bucket :: (match userBucket with | none => [] | some u => [u])
  let stagedLines := (buckets.map (fun b => listing ("gs://" ++ b ++ "/stage"))).flatten
  let calls := ExtCall.lastReleases ::
    buckets.map (fun b => ExtCall.gsutilLs ("gs://" ++ b ++ "/stage"))
  (⟨releaseLines, stagedLines⟩, calls)

/-! ### Submission -/

/-- The script-global values consumed by `submit_it` (set by MAIN before the
case dispatch, with `yaml_file`/`disk_size` adjusted per branch). -/
structure Ctx where
  command : String
  release_branch : String
  yaml_file : String
  asyncFlag : String
  disk_size : String
  official_tag : String
  nomock_tag : String
  rc_tag : String
  build_point : String
  gcp_user_tag : String
  build_at_head : String
  official : String
  rc : String
  nomock : String
  buildversion : String
  release_tool_repo : String
  release_tool_branch : String
deriving DecidableEq

/-- The comma-joined `--substitutions` argument of `submit_it`, as an ordered
key/value list; `_BUILD_AT_HEAD` is appended only when `$COMMAND == stage`. -/
def submit_subs (ctx : Ctx) (kubeCrossVersion : String) : List (String × String) :=
  [("_OFFICIAL_TAG", ctx.official_tag), ("_NOMOCK_TAG", ctx.nomock_tag),
   ("_RC_TAG", ctx.rc_tag), ("_BUILD_POINT", ctx.build_point),
   ("_GCP_USER_TAG", ctx.gcp_user_tag)]
  ++ (if ctx.command = "stage" then [("_BUILD_AT_HEAD", ctx.build_at_head)] else [])
  ++ [("_RELEASE_BRANCH", ctx.release_branch), ("_OFFICIAL", ctx.official),
      ("_RC", ctx.rc), ("_NOMOCK", ctx.nomock), ("_BUILDVERSION", ctx.buildversion),
      ("_RELEASE_TOOL_REPO", ctx.release_tool_repo),
      ("_RELEASE_TOOL_BRANCH", ctx.release_tool_branch),
      ("_KUBE_CROSS_VERSION", kubeCrossVersion)]

/-- How a handler leaves the script: a hard `common::exit`/`exit`, or a
function return whose status feeds `esac || common::exit 1`. -/
inductive Outcome where
  | exited (code : Nat)
  | returned (ok : Bool)
deriving DecidableEq

/-- Function `submit_it`: one `gcloud builds submit` call; on failure the script does
`exit 1`, on success it prints follow-up instructions and returns 0. -/
def submit_it (ctx : Ctx) (kcv : String) (submitOk : Bool) : Outcome × List ExtCall :=
  (if submitOk then Outcome.returned true else Outcome.exited 1,
   [ExtCall.buildsSubmit ctx.yaml_file ctx.asyncFlag ctx.disk_size (submit_subs ctx kcv)])

/-- Function `release_it`: branch check, kubecross lookup (hard exit 1 on failure),
mandatory-buildversion check, then `submit_it`. -/
def release_it (ctx : Ctx) (kube : String → String → Option String)
    (flagsBuildversion : String) (submitOk : Bool) : Outcome × List ExtCall :=
  if ctx.release_branch = "" then (Outcome.returned false, [])
  else
    match kube ctx.release_branch "master" with
    | none => (Outcome.exited 1, [ExtCall.kubecrossVersion ctx.release_branch "master"])
    | some kcv =>
      if flagsBuildversion = "" then
        (Outcome.returned false, [ExtCall.kubecrossVersion ctx.release_branch "master"])
      else
        let r := submit_it ctx kcv submitOk
        (r.1, ExtCall.kubecrossVersion ctx.release_branch "master" :: r.2)

/-- Function `stage_it`: branch check, kubecross lookup (hard exit 1 on failure), then
`submit_it`; no buildversion requirement. -/
def stage_it (ctx : Ctx) (kube : String → String → Option String) (submitOk : Bool) :
    Outcome × List ExtCall :=
  if ctx.release_branch = "" then (Outcome.returned false, [])
  else
    match kube ctx.release_branch "master" with
    | none => (Outcome.exited 1, [ExtCall.kubecrossVersion ctx.release_branch "master"])
    | some kcv =>
      let r := submit_it ctx kcv submitOk
      (r.1, ExtCall.kubecrossVersion ctx.release_branch "master" :: r.2)

/-! ### MAIN -/

/-- The command-line flags parsed by the common library
(`FLAGS_attended`, `FLAGS_official`, `FLAGS_rc`, `FLAGS_build_at_head`,
`FLAGS_nomock`, `FLAGS_buildversion`; the empty string models an unset
buildversion). -/
structure Flags where
  attended : Bool
  official : Bool
  rc : Bool
  build_at_head : Bool
  nomock : Bool
  buildversion : String
deriving DecidableEq

/-- Environment and external-oracle inputs of one run: positional arguments,
pre-flight check results, configuration reads, and the responses of the
external collaborator APIs. -/
structure Env where
  arg0 : String
  arg2 : String
  checkPackagesOk : Bool
  repoStateOk : Bool
  cloudBinariesOk : Bool
  defaultBucket : String
  bucketOverride : String
  gcpUser : String
  toolRoot : String
  releaseToolRepoOverride : String
  releaseToolBranchOverride : String
  kubecross : String → String → Option String
  askAnswer : Bool
  submitOk : Bool
  jobs : List Job
  streamResolved : String
  lastRel : List (String × String)
  sortLe : String → String → Bool
  listing : String → List String

/-- Observable result of one run: process exit code, the trace of external
collaborator calls, and whether the `--nomock` confirmation prompt was shown. -/
structure RunResult where
  exitCode : Nat
  calls : List ExtCall
  prompted : Bool
deriving DecidableEq

/-- The `esac || common::exit 1` line plus the normal end of the script: a returned
failure exits 1, a returned success runs to the end, exiting 0. -/
def interpretOutcome : Outcome → Nat
  | Outcome.exited c => c
  | Outcome.returned true => 0
  | Outcome.returned false => 1

/-- MAIN in program order: pre-flight checks, configuration reads,
GCP_USER_TAG derivation, official/rc mutual exclusion, tag/bucket setup,
BUILD_POINT derivation, then the case dispatch.  `list`, `staged` and
`stream|tail` end in `common::exit 0` regardless of the handler's status. -/
def MAIN (flags : Flags) (env : Env) : RunResult :=
  if env.checkPackagesOk = false then ⟨1, [], false⟩
  else if env.repoStateOk = false then ⟨1, [], false⟩
  else if env.cloudBinariesOk = false then ⟨1, [], false⟩
  else
    let command := if env.arg0 = "" then "list" else env.arg0
    let bucket := if env.bucketOverride = "" then env.defaultBucket else env.bucketOverride
    let tag := gcp_user_tag env.gcpUser
    let asyncFlag := if flags.attended then "" else "--async"
    if flags.official ∧ flags.rc then ⟨1, [], false⟩
    else
      let ctx : Ctx := {
        command := command
        release_branch := env.arg2
        yaml_file := ""
        asyncFlag := asyncFlag
        disk_size := "300"
        official_tag := if flags.official then "official" else ""
        nomock_tag := if flags.nomock then "nomock" else ""
        rc_tag := if flags.official = false ∧ flags.rc then "rc" else ""
        build_point := derive_build_point flags.buildversion flags.build_at_head
        gcp_user_tag := tag
        build_at_head := if flags.build_at_head then "--build-at-head" else ""
        official := if flags.official then "--official" else ""
        rc := if flags.official = false ∧ flags.rc then "--rc" else ""
        nomock := if flags.nomock then "--nomock" else ""
        buildversion :=
          if flags.buildversion = "" then "" else "--buildversion=" ++ flags.buildversion
        release_tool_repo :=
          if env.releaseToolRepoOverride = "" then "[:/]kubernetes/release"
          else env.releaseToolRepoOverride
        release_tool_branch :=
          if env.releaseToolBranchOverride = "" then "master"
          else env.releaseToolBranchOverride }
      let userBucket := if flags.nomock then none else some (bucket ++ "-" ++ tag)
      if command = "list" then
        ⟨0, (list_jobs env.arg2 env.jobs).2, false⟩
      else if command = "staged" then
        ⟨0, (list_staged_builds env.lastRel env.sortLe bucket userBucket env.listing).2, false⟩
      else if command = "stream" ∨ command = "tail" then
        ⟨0, (stream_job_log env.arg2 env.streamResolved).2, false⟩
      else if command = "stage" then
        let ctx := { ctx with yaml_file := env.toolRoot ++ "/gcb/stage/cloudbuild.yaml" }
        let r := stage_it ctx env.kubecross env.submitOk
        ⟨interpretOutcome r.1, r.2, false⟩
      else if command = "release" then
        let ctx := { ctx with disk_size := "100",
                              yaml_file := env.toolRoot ++ "/gcb/release/cloudbuild.yaml" }
        if flags.nomock then
          if env.askAnswer = false then ⟨1, [], true⟩
          else
            let r := release_it ctx env.kubecross flags.buildversion env.submitOk
            ⟨interpretOutcome r.1, r.2, true⟩
        else
          let r := release_it ctx env.kubecross flags.buildversion env.submitOk
          ⟨interpretOutcome r.1, r.2, false⟩
      else ⟨1, [], false⟩

end Gcb

/-! ## Spec-side readings and shared concrete inputs -/

/-- BUILD_POINT as claim C4 words it: an explicit buildversion with every `+`
replaced by `-` wins over build-at-head (`HEAD`), which wins over the
`find_green_build` sentinel. -/
def build_point_claimed (bv : String) (bah : Bool) : String :=
  if bv ≠ "" then Gcb.replaceAll bv '+' "-"
  else if bah then "HEAD" else "find_green_build"

/-- Operator tag as claim C5 words it: lowercase; when the account ends with
`@google.com` strip that suffix, otherwise replace `@` with `-at-`; then
replace every `.` with `-`. -/
def gcp_user_tag_claimed (u0 : String) : String :=
  let u := Gcb.shellLower u0
  let t := if "@google.com".data.isSuffixOf u.data
           then Gcb.stripLitSuffix u "@google.com"
           else Gcb.replaceAll u '@' "-at-"
  Gcb.replaceAll t '.' "-"

/-- Operator tag as amended for claim C5: lowercase; strip one literal
`@google.com` suffix when present; then replace the first `@` with `-at-`
and the first `.` with `-` (the replacements run in both cases). -/
def gcp_user_tag_amended_reading (u0 : String) : String :=
  let u := Gcb.shellLower u0
  let t := if "@google.com".data.isSuffixOf u.data
           then Gcb.stripLitSuffix u "@google.com" else u
  Gcb.replaceFirst (Gcb.replaceFirst t '@' "-at-") '.' "-"

/-- All-false flag set with no buildversion. -/
def flags0 : Gcb.Flags :=
  { attended := false, official := false, rc := false, build_at_head := false,
    nomock := false, buildversion := "" }

/-- A concrete healthy environment used by the closed witnesses. -/
def env0 : Gcb.Env :=
  { arg0 := "", arg2 := "", checkPackagesOk := true, repoStateOk := true,
    cloudBinariesOk := true, defaultBucket := "kubernetes-release",
    bucketOverride := "", gcpUser := "jane@google.com", toolRoot := "/tool",
    releaseToolRepoOverride := "", releaseToolBranchOverride := "",
    kubecross := fun _ _ => some "v1.21.0-rc.0", askAnswer := false,
    submitOk := true, jobs := [], streamResolved := "", lastRel := [],
    sortLe := fun _ _ => true, listing := fun _ => [] }

/-- Is an external call a build-submission call? -/
def isSubmitCall : Gcb.ExtCall → Bool
  | Gcb.ExtCall.buildsSubmit _ _ _ _ => true
  | _ => false

/-- Is an external call a log-streaming call? -/
def isLogCall : Gcb.ExtCall → Bool
  | Gcb.ExtCall.buildsLog _ => true
  | _ => false

/-- Concrete tail invocation with the invalid id `zzz`. -/
def envC1 : Gcb.Env := { env0 with arg0 := "tail", arg2 := "zzz" }

/-- Concrete release invocation on branch release-1.8 without a buildversion. -/
def envC3 : Gcb.Env := { env0 with arg0 := "release", arg2 := "release-1.8" }

/-- Concrete stage invocation on branch release-1.8 without a buildversion. -/
def envStage : Gcb.Env := { env0 with arg0 := "stage", arg2 := "release-1.8" }

/-- Flag set of the C7 mock-mode release scenario. -/
def flagsC7 : Gcb.Flags :=
  { flags0 with official := true, buildversion := "v1.8.4-beta.0.52+d56fafdc081d5f" }

/-- Flag set of the C7 nomock scenario. -/
def flagsC7n : Gcb.Flags := { flagsC7 with nomock := true }

/-- A fixed seven-row job listing with mixed statuses for the C6 witness. -/
def jobsC6 : List Gcb.Job :=
  [⟨"aaa", "t1", "e", "s", "i", "WORKING"⟩,
   ⟨"bbb", "t2", "e", "s", "i", "SUCCESS"⟩,
   ⟨"ccc", "t3", "e", "s", "i", "WORKING"⟩,
   ⟨"ddd", "t4", "e", "s", "i", "FAILURE"⟩,
   ⟨"eee", "t5", "e", "s", "i", "WORKING"⟩,
   ⟨"fff", "t6", "e", "s", "i", "CANCELLED"⟩,
   ⟨"ggg", "t7", "e", "s", "i", "WORKING"⟩]

/-- Registry fixture for the C8 witness. -/
def lastRelW : List (String × String) :=
  [("release-1.8", "v1.8.3"), ("master", "v1.9.0-alpha.2")]

/-- Listing fixture for the C8 witness. -/
def listingW : String → List String := fun p => [p ++ "/v0"]

/-- Concrete staged invocation for the C8 witness. -/
def envStaged : Gcb.Env := { env0 with arg0 := "staged" }

namespace Krel

/-!
Model of `src/apis/krel/v1alpha1/zz_generated.deepcopy.go`.

Go slices are references into a heap; a nil slice is `none`, a non-nil slice
is `some r` with `r` an address.  `Heap` has one address counter and one
store per element type.  Struct fields other than the slices are copied by
plain assignment (`*out = *in`); they are collapsed into an opaque `scalars`
payload (the spec gives them as name/platform strings with no behavior).
-/

/-- Go `Binary`: scalar fields plus the `Platforms []PlatformType` slice. -/
structure Binary where
  scalars : String
  platforms : Option Nat
deriving DecidableEq

/-- Go `Image`: scalar fields plus the `PlatformType []string` slice. -/
structure Image where
  scalars : String
  platformType : Option Nat
deriving DecidableEq

/-- Go `TypeMeta`: scalar fields only. -/
structure TypeMeta where
  scalars : String
deriving DecidableEq

/-- Go `Config`: `TypeMeta` by value plus the `Binaries []Binary` and
`Images []Image` slices. -/
structure Config where
  typeMeta : TypeMeta
  binaries : Option Nat
  images : Option Nat
deriving DecidableEq

/-- Heap: one fresh-address counter and a store per slice element type. -/
structure Heap where
  next : Nat
  pstore : Nat → List String
  bstore : Nat → List Binary
  istore : Nat → List Image

/-- Allocate a fresh platform-string list (`make` + `copy`). -/
def Heap.allocP (h : Heap) (v : List String) : Nat × Heap :=
  (h.next, { h with next := h.next + 1,
                    pstore := fun n => if n = h.next then v else h.pstore n })

/-- Allocate a fresh `[]Binary` list. -/
def Heap.allocB (h : Heap) (v : List Binary) : Nat × Heap :=
  (h.next, { h with next := h.next + 1,
                    bstore := fun n => if n = h.next then v else h.bstore n })

/-- Allocate a fresh `[]Image` list. -/
def Heap.allocI (h : Heap) (v : List Image) : Nat × Heap :=
  (h.next, { h with next := h.next + 1,
                    istore := fun n => if n = h.next then v else h.istore n })

/-- Go `Binary.DeepCopyInto`: `*out = *in`, then if `in.Platforms != nil`
allocate a fresh slice holding a copy of the elements. -/
def Binary.deepCopyInto (b : Binary) (h : Heap) : Binary × Heap :=
  match b.platforms with
  | none => (b, h)
  | some r =>
    let a := h.allocP (h.pstore r)
    ({ b with platforms := some a.1 }, a.2)

/-- Go `Image.DeepCopyInto`: `*out = *in`, then if `in.PlatformType != nil`
allocate a fresh slice holding a copy of the elements. -/
def Image.deepCopyInto (i : Image) (h : Heap) : Image × Heap :=
  match i.platformType with
  | none => (i, h)
  | some r =>
    let a := h.allocP (h.pstore r)
    ({ i with platformType := some a.1 }, a.2)

/-- Element-wise `DeepCopyInto` over a `[]Binary`, threading the heap
(the `for i := range *in` loop of `Config.DeepCopyInto`). -/
def copyBinaries : List Binary → Heap → List Binary × Heap
  | [], h => ([], h)
  | b :: bs, h =>
    let x := Binary.deepCopyInto b h
    let y := copyBinaries bs x.2
    (x.1 :: y.1, y.2)

/-- Element-wise `DeepCopyInto` over a `[]Image`. -/
def copyImages : List Image → Heap → List Image × Heap
  | [], h => ([], h)
  | i :: is', h =>
    let x := Image.deepCopyInto i h
    let y := copyImages is' x.2
    (x.1 :: y.1, y.2)

/-- The `if in.Binaries != nil` block of `Config.DeepCopyInto`: a nil slice
stays nil; otherwise the elements are deep-copied in order into a fresh
slice.  (The Go code allocates the outer slice before filling it;
allocation order does not affect any observable value.) -/
def binariesStage : Option Nat → Heap → Option Nat × Heap
  | none, h => (none, h)
  | some r, h =>
    let x := copyBinaries (h.bstore r) h
    let a := x.2.allocB x.1
    (some a.1, a.2)

/-- The `if in.Images != nil` block of `Config.DeepCopyInto`. -/
def imagesStage : Option Nat → Heap → Option Nat × Heap
  | none, h => (none, h)
  | some r, h =>
    let x := copyImages (h.istore r) h
    let a := x.2.allocI x.1
    (some a.1, a.2)

/-- Go `Config.DeepCopyInto`: `*out = *in` and `out.TypeMeta = in.TypeMeta`,
then fresh `Binaries` and `Images` slices for the non-nil inputs, each
element deep-copied in order. -/
def Config.deepCopyInto (c : Config) (h : Heap) : Config × Heap :=
  let bh := binariesStage c.binaries h
  let ih := imagesStage c.images bh.2
  ({ c with binaries := bh.1, images := ih.1 }, ih.2)

/-- Go `Config.DeepCopy` on a non-nil receiver: `out := new(Config)` and
`DeepCopyInto(out)`. -/
def Config.deepCopy (c : Config) (h : Heap) : Config × Heap := c.deepCopyInto h

/-- Deep value of a `Binary`: scalars plus the platform list read through
its reference. -/
structure BinaryV where
  scalars : String
  platforms : Option (List String)
deriving DecidableEq

/-- Deep value of an `Image`. -/
structure ImageV where
  scalars : String
  platformType : Option (List String)
deriving DecidableEq

/-- Deep value of a `Config`: nested lists fully dereferenced, in store
order. -/
structure ConfigV where
  typeMeta : TypeMeta
  binaries : Option (List BinaryV)
  images : Option (List ImageV)
deriving DecidableEq

/-- Read a `Binary` as a value. -/
def Binary.val (b : Binary) (h : Heap) : BinaryV :=
  ⟨b.scalars, b.platforms.map h.pstore⟩

/-- Read an `Image` as a value. -/
def Image.val (i : Image) (h : Heap) : ImageV :=
  ⟨i.scalars, i.platformType.map h.pstore⟩

/-- Read a `Config` as a value. -/
def Config.val (c : Config) (h : Heap) : ConfigV :=
  ⟨c.typeMeta,
   c.binaries.map (fun r => (h.bstore r).map (fun b => b.val h)),
   c.images.map (fun r => (h.istore r).map (fun i => i.val h))⟩

/-- All references of a `Binary` lie below `n`. -/
def Binary.wfN (b : Binary) (n : Nat) : Prop :=
  ∀ r, b.platforms = some r → r < n

/-- All references of an `Image` lie below `n`. -/
def Image.wfN (i : Image) (n : Nat) : Prop :=
  ∀ r, i.platformType = some r → r < n

/-- All references reachable from a `Config` through the stores of `g` lie
below `n`. -/
def Config.wfN (c : Config) (g : Heap) (n : Nat) : Prop :=
  (∀ r, c.binaries = some r → r < n ∧ ∀ b ∈ g.bstore r, b.wfN n) ∧
  (∀ r, c.images = some r → r < n ∧ ∀ i ∈ g.istore r, i.wfN n)

/-- A `Config` is well formed in `h` when everything it reaches is below the
allocation frontier. -/
def Config.wf (c : Config) (h : Heap) : Prop := Config.wfN c h h.next

/-- Heap extension: the counter grows and every cell below the old frontier
is unchanged. -/
def Heap.Ext (h h' : Heap) : Prop :=
  h.next ≤ h'.next ∧
  ∀ r, r < h.next →
    h'.pstore r = h.pstore r ∧ h'.bstore r = h.bstore r ∧ h'.istore r = h.istore r

/-- A single in-place list mutation through a slice reference. -/
inductive Mut where
  | pset (r : Nat) (v : List String)
  | bset (r : Nat) (v : List Binary)
  | iset (r : Nat) (v : List Image)

/-- Apply a mutation to the heap. -/
def Heap.applyMut (h : Heap) : Mut → Heap
  | Mut.pset r v => { h with pstore := fun n => if n = r then v else h.pstore n }
  | Mut.bset r v => { h with bstore := fun n => if n = r then v else h.bstore n }
  | Mut.iset r v => { h with istore := fun n => if n = r then v else h.istore n }

/-- The address a mutation writes. -/
def Mut.target : Mut → Nat
  | Mut.pset r _ => r
  | Mut.bset r _ => r
  | Mut.iset r _ => r

/-- The mutation writes one of the lists reachable from `c` in `g`: its
`Binaries` or `Images` slice, or the `Platforms`/`PlatformType` slice of one
of its elements. -/
def Mut.hitsConfig (m : Mut) (c : Config) (g : Heap) : Prop :=
  match m with
  | Mut.bset r _ => c.binaries = some r
  | Mut.iset r _ => c.images = some r
  | Mut.pset r _ =>
    (∃ rb, c.binaries = some rb ∧ ∃ b ∈ g.bstore rb, b.platforms = some r) ∨
    (∃ ri, c.images = some ri ∧ ∃ i ∈ g.istore ri, i.platformType = some r)

end Krel

/-- A concrete four-cell heap for the C9 witness. -/
def h9 : Krel.Heap :=
  { next := 4,
    pstore := fun n =>
      if n = 0 then ["linux/amd64", "windows/386"] else if n = 1 then ["linux"] else [],
    bstore := fun n => if n = 2 then [⟨"kubectl", some 0⟩] else [],
    istore := fun n => if n = 3 then [⟨"conformance", some 1⟩] else [] }

/-- A concrete config referencing one binary list and one image list. -/
def c9 : Krel.Config := ⟨⟨"Config"⟩, some 2, some 3⟩

/-! ## Claims -/

/-- C2: invoking a submission subcommand with both the official flag and the
release-candidate flag set aborts with exit code 1 before any external
collaborator call (the result is exit 1, an empty call trace, no prompt);
this holds for every subcommand, in particular `stage` and `release`. -/
theorem claim_C2 (flags : Gcb.Flags) (env : Gcb.Env)
    (h : flags.official = true ∧ flags.rc = true) :
    Gcb.MAIN flags env = ⟨1, [], false⟩ := by
  obtain ⟨h1, h2⟩ := h
  cases hcp : env.checkPackagesOk <;> cases hrs : env.repoStateOk <;>
    cases hcb : env.cloudBinariesOk <;>
      simp [Gcb.MAIN, hcp, hrs, hcb, h1, h2]

/-- Closed witness for C2. -/
theorem claim_C2_witness :
    Gcb.MAIN { flags0 with official := true, rc := true }
      { env0 with arg0 := "release", arg2 := "release-1.8" } = ⟨1, [], false⟩ :=
  claim_C2 _ _ ⟨rfl, rfl⟩

/-- C10: the `_BUILD_AT_HEAD` key appears in the submitted substitution set
iff the subcommand is `stage`; a `release` submission never carries it. -/
theorem claim_C10 (ctx : Gcb.Ctx) (kcv : String) :
    "_BUILD_AT_HEAD" ∈ (Gcb.submit_subs ctx kcv).map Prod.fst ↔
      ctx.command = "stage" := by
  by_cases h : ctx.command = "stage" <;> simp [Gcb.submit_subs, h]

/-- C4 fails as stated: for buildversion `v1+2+3` the code replaces only the
first `+` (bash single substitution), while the claim's "any `+` replaced"
reading yields `v1-2-3`. -/
theorem claim_C4_counterexample :
    Gcb.derive_build_point "v1+2+3" false = "v1-2+3" ∧
    build_point_claimed "v1+2+3" false = "v1-2-3" ∧
    Gcb.derive_build_point "v1+2+3" false ≠ build_point_claimed "v1+2+3" false := by
  decide

/-- C4 amended: build-point precedence holds with only the first `+` of an
explicit buildversion replaced by `-`: buildversion wins over build-at-head
(`HEAD`), which wins over the `find_green_build` sentinel; in particular
`v1.2.3-beta.0.1+abcdef` gives `v1.2.3-beta.0.1-abcdef`. -/
theorem claim_C4_amended (bv : String) (bah : Bool) :
    (bv ≠ "" → Gcb.derive_build_point bv bah = Gcb.replaceFirst bv '+' "-") ∧
    (bv = "" → bah = true → Gcb.derive_build_point bv bah = "HEAD") ∧
    (bv = "" → bah = false → Gcb.derive_build_point bv bah = "find_green_build") ∧
    Gcb.derive_build_point "v1.2.3-beta.0.1+abcdef" false = "v1.2.3-beta.0.1-abcdef" := by
  refine ⟨?_, ?_, ?_, by decide⟩
  · intro h; simp [Gcb.derive_build_point, h]
  · intro h hb; simp [Gcb.derive_build_point, h, hb]
  · intro h hb; simp [Gcb.derive_build_point, h, hb]

/-- Closed witness for amended C4, covering all three precedence cases. -/
theorem claim_C4_amended_witness :
    Gcb.derive_build_point "v1.2.3-beta.0.1+abcdef" false = "v1.2.3-beta.0.1-abcdef" ∧
    Gcb.derive_build_point "" true = "HEAD" ∧
    Gcb.derive_build_point "" false = "find_green_build" :=
  ⟨(claim_C4_amended "v1.2.3-beta.0.1+abcdef" false).2.2.2,
   (claim_C4_amended "" true).2.1 rfl rfl,
   (claim_C4_amended "" false).2.2.1 rfl rfl⟩

/-- C5 fails as stated: for account `a.b.c@x@google.com` the code strips the
suffix, then still replaces the first `@` and only the first `.`, giving
`a-b.c-at-x`; the claim's reading (strip-or-replace, every `.` replaced)
gives `a-b-c@x`. -/
theorem claim_C5_counterexample :
    Gcb.gcp_user_tag "a.b.c@x@google.com" = "a-b.c-at-x" ∧
    gcp_user_tag_claimed "a.b.c@x@google.com" = "a-b-c@x" ∧
    Gcb.gcp_user_tag "a.b.c@x@google.com" ≠ gcp_user_tag_claimed "a.b.c@x@google.com" := by
  decide

/-- C5 amended: the operator tag is the account lower-cased, with one literal
`@google.com` suffix stripped when present, and then the first `@` replaced
by `-at-` and the first `.` replaced by `-` (both replacements also run
after stripping); in particular `jane@google.com` gives `jane` and
`jane@example.com` gives `jane-at-example-com`. -/
theorem claim_C5_amended (u : String) :
    Gcb.gcp_user_tag u = gcp_user_tag_amended_reading u ∧
    Gcb.gcp_user_tag "jane@google.com" = "jane" ∧
    Gcb.gcp_user_tag "jane@example.com" = "jane-at-example-com" := by
  refine ⟨?_, by decide, by decide⟩
  simp only [Gcb.gcp_user_tag, gcp_user_tag_amended_reading, Gcb.stripLitSuffix]
  split <;> rfl

/-- C1 fails as stated: on the invalid id `zzz` the Streamer prints its error
and makes no log-streaming call, but the process exit code is 0, not
non-zero — the dispatcher runs `common::exit 0` unconditionally after the
`tail|stream` handler. -/
theorem claim_C1_counterexample :
    Gcb.matchesBuildId "zzz" = false ∧
    Gcb.MAIN flags0 envC1 = ⟨0, [], false⟩ := by
  decide

/-- C1 amended: for every tail/stream input whose (explicit or resolved) id
does not contain a 32-character `[a-f0-9-]` run — including the empty id
resolved when no WORKING job exists — the handler fails (returns 1) and no
log-streaming call is made, but the process exits 0 because the dispatcher
exits 0 unconditionally after the handler. -/
theorem claim_C1_amended (flags : Gcb.Flags) (env : Gcb.Env)
    (hcp : env.checkPackagesOk = true) (hrs : env.repoStateOk = true)
    (hcb : env.cloudBinariesOk = true)
    (hofrc : ¬(flags.official = true ∧ flags.rc = true))
    (hcmd : env.arg0 = "tail" ∨ env.arg0 = "stream")
    (hid : Gcb.matchesBuildId
      (if env.arg2 = "" then env.streamResolved else env.arg2) = false) :
    (Gcb.stream_job_log env.arg2 env.streamResolved).1 = false ∧
    ((Gcb.MAIN flags env).calls.any isLogCall) = false ∧
    (Gcb.MAIN flags env).exitCode = 0 := by
  have hsj : Gcb.stream_job_log env.arg2 env.streamResolved =
      (false, if env.arg2 = "" then [Gcb.ExtCall.buildsList] else []) := by
    simp [Gcb.stream_job_log, hid]
  have hmain : Gcb.MAIN flags env =
      ⟨0, (Gcb.stream_job_log env.arg2 env.streamResolved).2, false⟩ := by
    rcases hcmd with h | h <;>
      simp [Gcb.MAIN, hcp, hrs, hcb, h, hofrc]
  refine ⟨by simp [hsj], ?_, by simp [hmain]⟩
  rw [hmain, hsj]
  by_cases h2 : env.arg2 = "" <;> simp [h2, isLogCall]

/-- Closed witness for amended C1 at the invalid id `zzz`. -/
theorem claim_C1_amended_witness :
    (Gcb.stream_job_log "zzz" "").1 = false ∧
    ((Gcb.MAIN flags0 envC1).calls.any isLogCall) = false ∧
    (Gcb.MAIN flags0 envC1).exitCode = 0 :=
  claim_C1_amended flags0 envC1 rfl rfl rfl (by decide) (Or.inl rfl) (by decide)

/-- C3 fails as stated: `release release-1.8` without a buildversion exits 1,
but only after the branch-to-toolchain-version lookup — an external call —
has been made; the call trace is not empty. -/
theorem claim_C3_counterexample :
    Gcb.MAIN flags0 envC3 =
      ⟨1, [Gcb.ExtCall.kubecrossVersion "release-1.8" "master"], false⟩ ∧
    (Gcb.MAIN flags0 envC3).calls ≠ [] := by
  decide

/-- Helper: `release_it` with an empty buildversion never reaches
`submit_it` and its outcome maps to exit code 1. -/
theorem release_it_empty_bv (ctx : Gcb.Ctx) (kube : String → String → Option String)
    (ok : Bool) :
    Gcb.interpretOutcome (Gcb.release_it ctx kube "" ok).1 = 1 ∧
    ∀ x ∈ (Gcb.release_it ctx kube "" ok).2, isSubmitCall x = false := by
  unfold Gcb.release_it
  split
  · simp [Gcb.interpretOutcome]
  · split
    · simp [Gcb.interpretOutcome, isSubmitCall]
    · simp [Gcb.interpretOutcome, isSubmitCall]

/-- C3 amended: every `release` invocation without an explicit buildversion
exits 1 with no submission call, but the abort is not always before every
external call (the toolchain lookup may already have run, as the
counterexample shows); a `stage` invocation without a buildversion does not
abort on that ground: the concrete stage run below exits 0 and submits. -/
theorem claim_C3_amended (flags : Gcb.Flags) (env : Gcb.Env) :
    (env.arg0 = "release" → flags.buildversion = "" →
      (Gcb.MAIN flags env).exitCode = 1 ∧
      ((Gcb.MAIN flags env).calls.any isSubmitCall) = false) ∧
    ((Gcb.MAIN flags0 envStage).exitCode = 0 ∧
      ((Gcb.MAIN flags0 envStage).calls.any isSubmitCall) = true) := by
  refine ⟨?_, by decide⟩
  intro h0 hbv
  by_cases hcp : env.checkPackagesOk = false
  · simp [Gcb.MAIN, hcp]
  · by_cases hrs : env.repoStateOk = false
    · simp [Gcb.MAIN, hcp, hrs]
    · by_cases hcb : env.cloudBinariesOk = false
      · simp [Gcb.MAIN, hcp, hrs, hcb]
      · by_cases hor : flags.official = true ∧ flags.rc = true
        · simp [Gcb.MAIN, hcp, hrs, hcb, hor]
        · by_cases hnm : flags.nomock = true
          · by_cases hask : env.askAnswer = false
            · simp [Gcb.MAIN, hcp, hrs, hcb, hor, h0, hnm, hask]
            · simp [Gcb.MAIN, hcp, hrs, hcb, hor, h0, hnm, hask, hbv]
              exact release_it_empty_bv _ _ _
          · simp [Gcb.MAIN, hcp, hrs, hcb, hor, h0, hnm, hbv]
            exact release_it_empty_bv _ _ _

/-- Closed witness for amended C3: the concrete release run without a
buildversion exits 1 without submitting, and the stage run exits 0. -/
theorem claim_C3_amended_witness :
    ((Gcb.MAIN flags0 envC3).exitCode = 1 ∧
      ((Gcb.MAIN flags0 envC3).calls.any isSubmitCall) = false) ∧
    ((Gcb.MAIN flags0 envStage).exitCode = 0 ∧
      ((Gcb.MAIN flags0 envStage).calls.any isSubmitCall) = true) :=
  ⟨(claim_C3_amended flags0 envC3).1 rfl rfl, (claim_C3_amended flags0 envC3).2⟩

/-- C7: the end-to-end release scenario `release release-1.8 --official
--buildversion=v1.8.4-beta.0.52+d56fafdc081d5f`: with nomock unset the run
shows no confirmation prompt and submits with the release job-definition
path, disk size 100, and substitution
`_BUILDVERSION=--buildversion=v1.8.4-beta.0.52+d56fafdc081d5f`; with nomock
set and assent not granted the run exits 1 with no external call at all. -/
theorem claim_C7 (flags : Gcb.Flags) (env : Gcb.Env)
    (hcp : env.checkPackagesOk = true) (hrs : env.repoStateOk = true)
    (hcb : env.cloudBinariesOk = true) (h0 : env.arg0 = "release")
    (hof : flags.official = true) (hrc : flags.rc = false)
    (hbv : flags.buildversion = "v1.8.4-beta.0.52+d56fafdc081d5f")
    (hbr : env.arg2 = "release-1.8") :
    (flags.nomock = false →
      ∀ kcv, env.kubecross "release-1.8" "master" = some kcv →
        (Gcb.MAIN flags env).prompted = false ∧
        ∃ a subs,
          Gcb.ExtCall.buildsSubmit (env.toolRoot ++ "/gcb/release/cloudbuild.yaml")
              a "100" subs ∈ (Gcb.MAIN flags env).calls ∧
          ("_BUILDVERSION", "--buildversion=v1.8.4-beta.0.52+d56fafdc081d5f") ∈ subs) ∧
    (flags.nomock = true → env.askAnswer = false →
      (Gcb.MAIN flags env).exitCode = 1 ∧ (Gcb.MAIN flags env).prompted = true ∧
      (Gcb.MAIN flags env).calls = []) := by
  constructor
  · intro hnm kcv hk
    constructor
    · simp [Gcb.MAIN, hcp, hrs, hcb, h0, hof, hrc, hnm]
    · simp [Gcb.MAIN, hcp, hrs, hcb, h0, hof, hrc, hbv, hbr, hnm, hk,
        Gcb.release_it, Gcb.submit_it]
      refine ⟨_, _, ⟨rfl, rfl⟩, ?_⟩
      simp [Gcb.submit_subs]
  · intro hnm hask
    simp [Gcb.MAIN, hcp, hrs, hcb, h0, hof, hrc, hnm, hask]

/-- Closed witness for C7 on the concrete release-1.8 environment. -/
theorem claim_C7_witness :
    ((Gcb.MAIN flagsC7 envC3).prompted = false ∧
      ∃ a subs,
        Gcb.ExtCall.buildsSubmit ("/tool" ++ "/gcb/release/cloudbuild.yaml") a "100" subs
            ∈ (Gcb.MAIN flagsC7 envC3).calls ∧
        ("_BUILDVERSION", "--buildversion=v1.8.4-beta.0.52+d56fafdc081d5f") ∈ subs) ∧
    ((Gcb.MAIN flagsC7n envC3).exitCode = 1 ∧ (Gcb.MAIN flagsC7n envC3).prompted = true ∧
      (Gcb.MAIN flagsC7n envC3).calls = []) :=
  ⟨(claim_C7 flagsC7 envC3 rfl rfl rfl rfl rfl rfl rfl rfl).1 rfl "v1.21.0-rc.0" rfl,
   (claim_C7 flagsC7n envC3 rfl rfl rfl rfl rfl rfl rfl rfl).2 rfl rfl⟩

/-- The `list_jobs` loop only ever emits a subsequence of its input rows. -/
theorem list_jobs_loop_sublist (s : String) :
    ∀ (l : List Gcb.Job) (c : Nat), (Gcb.list_jobs_loop s l c).Sublist l := by
  intro l
  induction l with
  | nil => intro c; simp [Gcb.list_jobs_loop]
  | cons j rest ih =>
    intro c
    unfold Gcb.list_jobs_loop
    split
    · exact List.Sublist.cons j (ih c)
    · split
      · exact List.Sublist.cons₂ j (List.nil_sublist rest)
      · exact List.Sublist.cons₂ j (ih (c + 1))

/-- With a non-empty filter, every job the loop emits has exactly that
(upper-cased) status. -/
theorem list_jobs_loop_status (s : String) (hs : s ≠ "") :
    ∀ (l : List Gcb.Job) (c : Nat) (j : Gcb.Job),
      j ∈ Gcb.list_jobs_loop s l c → j.status = s := by
  intro l
  induction l with
  | nil => intro c j hj; simp [Gcb.list_jobs_loop] at hj
  | cons k rest ih =>
    intro c j hj
    unfold Gcb.list_jobs_loop at hj
    split at hj
    · exact ih c j hj
    · rename_i hcond
      have hks : k.status = s := by
        by_contra hne
        exact hcond ⟨hs, hne⟩
      split at hj
      · rw [List.mem_singleton] at hj
        rw [hj]; exact hks
      · rcases List.mem_cons.mp hj with rfl | hj2
        · exact hks
        · exact ih (c + 1) j hj2

/-- The loop never emits more than `5 - c` rows when started at counter `c`. -/
theorem list_jobs_loop_length (s : String) :
    ∀ (l : List Gcb.Job) (c : Nat), c ≤ 4 → (Gcb.list_jobs_loop s l c).length ≤ 5 - c := by
  intro l
  induction l with
  | nil => intro c hc; simp [Gcb.list_jobs_loop]
  | cons j rest ih =>
    intro c hc
    unfold Gcb.list_jobs_loop
    split
    · exact ih c hc
    · split
      · rename_i h5
        simp only [List.length_singleton]
        omega
      · rename_i h5
        have := ih (c + 1) (by omega)
        simp only [List.length_cons]
        omega

/-- With an empty filter the loop emits exactly the first `5 - c` rows. -/
theorem list_jobs_loop_take :
    ∀ (l : List Gcb.Job) (c : Nat), c ≤ 4 →
      Gcb.list_jobs_loop "" l c = l.take (5 - c) := by
  intro l
  induction l with
  | nil => intro c hc; simp [Gcb.list_jobs_loop]
  | cons j rest ih =>
    intro c hc
    unfold Gcb.list_jobs_loop
    rw [if_neg (by simp)]
    by_cases h5 : 5 ≤ c + 1
    · rw [if_pos h5]
      have he : 5 - c = 1 := by omega
      rw [he]
      simp
    · rw [if_neg h5, ih (c + 1) (by omega)]
      have he : 5 - c = (5 - (c + 1)) + 1 := by omega
      rw [he, List.take_succ_cons]

/-- C6: for every status filter whose upper-casing is one of WORKING,
SUCCESS, FAILURE, CANCELLED — in any letter case — or the empty filter, the
Job Lister emits only rows whose status matches the filter
case-insensitively, preserves the order returned by the external listing
(the emitted rows are a subsequence of it), never emits more than 5 rows,
and with the empty filter emits exactly the first 5 rows. -/
theorem claim_C6 (f : String) (jobs : List Gcb.Job)
    (hf : Gcb.shellUpper f = "WORKING" ∨ Gcb.shellUpper f = "SUCCESS" ∨
          Gcb.shellUpper f = "FAILURE" ∨ Gcb.shellUpper f = "CANCELLED" ∨ f = "") :
    (f ≠ "" → ∀ j ∈ (Gcb.list_jobs f jobs).1,
        Gcb.shellUpper j.status = Gcb.shellUpper f) ∧
    (Gcb.list_jobs f jobs).1.Sublist jobs ∧
    (Gcb.list_jobs f jobs).1.length ≤ 5 ∧
    (f = "" → (Gcb.list_jobs f jobs).1 = jobs.take 5) := by
  refine ⟨?_, ?_, ?_, ?_⟩
  · intro hne j hj
    have hj2 : j ∈ Gcb.list_jobs_loop (Gcb.shellUpper f) jobs 0 := by
      simpa [Gcb.list_jobs] using hj
    have hsne : Gcb.shellUpper f ≠ "" := by
      rcases hf with h | h | h | h | h
      · rw [h]; decide
      · rw [h]; decide
      · rw [h]; decide
      · rw [h]; decide
      · exact absurd h hne
    have hst : j.status = Gcb.shellUpper f :=
      list_jobs_loop_status _ hsne jobs 0 j hj2
    rw [hst]
    rcases hf with h | h | h | h | h
    · rw [h]; decide
    · rw [h]; decide
    · rw [h]; decide
    · rw [h]; decide
    · exact absurd h hne
  · simpa [Gcb.list_jobs] using list_jobs_loop_sublist (Gcb.shellUpper f) jobs 0
  · simpa [Gcb.list_jobs] using list_jobs_loop_length (Gcb.shellUpper f) jobs 0 (by omega)
  · intro hfe
    have h0 : Gcb.shellUpper f = "" := by rw [hfe]; rfl
    have ht := list_jobs_loop_take jobs 0 (by omega)
    simp only [Gcb.list_jobs, h0]
    rw [ht]

/-- Closed witness for C6 on the filter `working` over seven concrete jobs. -/
theorem claim_C6_witness :
    (Gcb.list_jobs "working" jobsC6).1.Sublist jobsC6 ∧
    (Gcb.list_jobs "working" jobsC6).1.length ≤ 5 ∧
    Gcb.shellUpper (⟨"aaa", "t1", "e", "s", "i", "WORKING"⟩ : Gcb.Job).status =
      Gcb.shellUpper "working" :=
  ⟨(claim_C6 "working" jobsC6 (Or.inl (by decide))).2.1,
   (claim_C6 "working" jobsC6 (Or.inl (by decide))).2.2.1,
   (claim_C6 "working" jobsC6 (Or.inl (by decide))).1 (by decide) _ (by decide)⟩

/-- The per-operator staging path always differs from the project staging
path (it is strictly longer). -/
theorem userPath_ne (b t : String) :
    "gs://" ++ (b ++ "-" ++ t) ++ "/stage" ≠ "gs://" ++ b ++ "/stage" := by
  intro h
  have hl := congrArg String.length h
  simp [String.length_append] at hl
  have h1 : "-".length = 1 := rfl
  omega

/-- C8: the Staged-Build Reporter always queries the last-published-release
registry and renders it sorted by branch key; it always lists the
project-wide bucket staging path; its staged-build output is the raw
concatenation of the listings (no filtering against published versions);
every call it makes is a read-only query; and in a `staged` run the
per-operator bucket path is listed iff nomock is unset. -/
theorem claim_C8 (lastRel : List (String × String)) (sortLe : String → String → Bool)
    (bucket : String) (userBucket : Option String) (listing : String → List String)
    (htot : ∀ a b, sortLe a b = true ∨ sortLe b a = true)
    (htr : ∀ a b c, sortLe a b = true → sortLe b c = true → sortLe a c = true) :
    Gcb.ExtCall.lastReleases ∈
      (Gcb.list_staged_builds lastRel sortLe bucket userBucket listing).2 ∧
    (∃ ks, List.Sorted (fun a b => sortLe a b = true) ks ∧
      ks.Perm (lastRel.map Prod.fst) ∧
      (Gcb.list_staged_builds lastRel sortLe bucket userBucket listing).1.releaseLines =
        ks.map (fun k => k ++ ": " ++ ((lastRel.lookup k).getD ""))) ∧
    Gcb.ExtCall.gsutilLs ("gs://" ++ bucket ++ "/stage") ∈
      (Gcb.list_staged_builds lastRel sortLe bucket userBucket listing).2 ∧
    ((Gcb.list_staged_builds lastRel sortLe bucket userBucket listing).1.stagedLines =
      listing ("gs://" ++ bucket ++ "/stage") ++
        (match userBucket with
          | none => []
          | some u => listing ("gs://" ++ u ++ "/stage"))) ∧
    (∀ c ∈ (Gcb.list_staged_builds lastRel sortLe bucket userBucket listing).2,
      c = Gcb.ExtCall.lastReleases ∨ ∃ p, c = Gcb.ExtCall.gsutilLs p) ∧
    (∀ (flags : Gcb.Flags) (env : Gcb.Env),
      env.checkPackagesOk = true → env.repoStateOk = true → env.cloudBinariesOk = true →
      ¬(flags.official = true ∧ flags.rc = true) → env.arg0 = "staged" →
      (Gcb.ExtCall.gsutilLs ("gs://" ++
          ((if env.bucketOverride = "" then env.defaultBucket else env.bucketOverride) ++
            "-" ++ Gcb.gcp_user_tag env.gcpUser) ++ "/stage")
          ∈ (Gcb.MAIN flags env).calls ↔ flags.nomock = false)) := by
  letI : IsTotal String (fun a b => sortLe a b = true) := ⟨htot⟩
  letI : IsTrans String (fun a b => sortLe a b = true) := ⟨fun a b c => htr a b c⟩
  refine ⟨?_, ?_, ?_, ?_, ?_, ?_⟩
  · simp [Gcb.list_staged_builds]
  · refine ⟨List.insertionSort (fun a b => sortLe a b = true) (lastRel.map Prod.fst),
      List.sorted_insertionSort _ _, List.perm_insertionSort _ _, ?_⟩
    simp [Gcb.list_staged_builds]
  · simp [Gcb.list_staged_builds]
  · cases userBucket <;> simp [Gcb.list_staged_builds]
  · intro c hc
    simp [Gcb.list_staged_builds] at hc
    rcases hc with rfl | hc
    · exact Or.inl rfl
    · rcases hc with rfl | ⟨a, _, rfl⟩
      · exact Or.inr ⟨_, rfl⟩
      · exact Or.inr ⟨_, rfl⟩
  · intro flags env hcp hrs hcb hor h0
    by_cases hnm : flags.nomock = true
    · refine iff_of_false ?_ (by simp [hnm])
      intro hmem
      simp [Gcb.MAIN, hcp, hrs, hcb, hor, h0, hnm, Gcb.list_staged_builds] at hmem
      exact userPath_ne _ _ hmem
    · have hnm' : flags.nomock = false := by simpa using hnm
      refine iff_of_true ?_ hnm'
      simp [Gcb.MAIN, hcp, hrs, hcb, hor, h0, hnm', Gcb.list_staged_builds]

/-- Closed witness for C8: registry query and project-bucket listing on
concrete inputs, and the per-operator-bucket iff on a concrete staged run. -/
theorem claim_C8_witness :
    Gcb.ExtCall.lastReleases ∈
      (Gcb.list_staged_builds lastRelW (fun _ _ => true) "kubernetes-release"
        (some ("kubernetes-release" ++ "-" ++ "jane")) listingW).2 ∧
    Gcb.ExtCall.gsutilLs ("gs://" ++ "kubernetes-release" ++ "/stage") ∈
      (Gcb.list_staged_builds lastRelW (fun _ _ => true) "kubernetes-release"
        (some ("kubernetes-release" ++ "-" ++ "jane")) listingW).2 ∧
    (Gcb.ExtCall.gsutilLs ("gs://" ++
        ((if envStaged.bucketOverride = "" then envStaged.defaultBucket
          else envStaged.bucketOverride) ++ "-" ++ Gcb.gcp_user_tag envStaged.gcpUser) ++
        "/stage") ∈ (Gcb.MAIN flags0 envStaged).calls ↔ flags0.nomock = false) :=
  ⟨(claim_C8 lastRelW (fun _ _ => true) "kubernetes-release"
      (some ("kubernetes-release" ++ "-" ++ "jane")) listingW
      (fun _ _ => Or.inl rfl) (fun _ _ _ _ _ => rfl)).1,
   (claim_C8 lastRelW (fun _ _ => true) "kubernetes-release"
      (some ("kubernetes-release" ++ "-" ++ "jane")) listingW
      (fun _ _ => Or.inl rfl) (fun _ _ _ _ _ => rfl)).2.2.1,
   (claim_C8 lastRelW (fun _ _ => true) "kubernetes-release"
      (some ("kubernetes-release" ++ "-" ++ "jane")) listingW
      (fun _ _ => Or.inl rfl) (fun _ _ _ _ _ => rfl)).2.2.2.2.2 flags0 envStaged
      rfl rfl rfl (by decide) rfl⟩

namespace Krel

/-- Heap extension is reflexive. -/
theorem ext_refl (h : Heap) : Heap.Ext h h :=
  ⟨Nat.le_refl _, fun _ _ => ⟨rfl, rfl, rfl⟩⟩

/-- Heap extension is transitive. -/
theorem ext_trans {h1 h2 h3 : Heap} (a : Heap.Ext h1 h2) (b : Heap.Ext h2 h3) :
    Heap.Ext h1 h3 := by
  refine ⟨Nat.le_trans a.1 b.1, fun r hr => ?_⟩
  have e2 := a.2 r hr
  have e3 := b.2 r (Nat.lt_of_lt_of_le hr a.1)
  exact ⟨e3.1.trans e2.1, e3.2.1.trans e2.2.1, e3.2.2.trans e2.2.2⟩

/-- Allocating a platform list extends the heap. -/
theorem allocP_ext (h : Heap) (v : List String) : Heap.Ext h (h.allocP v).2 := by
  refine ⟨by simp [Heap.allocP], fun r hr => ?_⟩
  refine ⟨?_, rfl, rfl⟩
  simp [Heap.allocP, Nat.ne_of_lt hr]

/-- Allocating a binary list extends the heap. -/
theorem allocB_ext (h : Heap) (v : List Binary) : Heap.Ext h (h.allocB v).2 := by
  refine ⟨by simp [Heap.allocB], fun r hr => ?_⟩
  refine ⟨rfl, ?_, rfl⟩
  simp [Heap.allocB, Nat.ne_of_lt hr]

/-- Allocating an image list extends the heap. -/
theorem allocI_ext (h : Heap) (v : List Image) : Heap.Ext h (h.allocI v).2 := by
  refine ⟨by simp [Heap.allocI], fun r hr => ?_⟩
  refine ⟨rfl, rfl, ?_⟩
  simp [Heap.allocI, Nat.ne_of_lt hr]

/-- Reference bounds are monotone in the frontier. -/
theorem bwfN_mono {b : Binary} {n n' : Nat} (hw : Binary.wfN b n) (hn : n ≤ n') :
    Binary.wfN b n' :=
  fun r hr => Nat.lt_of_lt_of_le (hw r hr) hn

/-- Reference bounds are monotone in the frontier. -/
theorem iwfN_mono {i : Image} {n n' : Nat} (hw : Image.wfN i n) (hn : n ≤ n') :
    Image.wfN i n' :=
  fun r hr => Nat.lt_of_lt_of_le (hw r hr) hn

/-- A binary's value only depends on the platform cells below its bound. -/
theorem bval_agree (b : Binary) (n : Nat) (g g' : Heap)
    (hp : ∀ r, r < n → g'.pstore r = g.pstore r) (hw : Binary.wfN b n) :
    Binary.val b g' = Binary.val b g := by
  cases hb : b.platforms with
  | none => simp [Binary.val, hb]
  | some r => simp [Binary.val, hb, hp r (hw r hb)]

/-- An image's value only depends on the platform cells below its bound. -/
theorem ival_agree (i : Image) (n : Nat) (g g' : Heap)
    (hp : ∀ r, r < n → g'.pstore r = g.pstore r) (hw : Image.wfN i n) :
    Image.val i g' = Image.val i g := by
  cases hi : i.platformType with
  | none => simp [Image.val, hi]
  | some r => simp [Image.val, hi, hp r (hw r hi)]

/-- A config's value only depends on the heap cells below its bound. -/
theorem Config.val_agree (c : Config) (n : Nat) (g g' : Heap)
    (hag : ∀ r, r < n →
      g'.pstore r = g.pstore r ∧ g'.bstore r = g.bstore r ∧ g'.istore r = g.istore r)
    (hw : Config.wfN c g n) : Config.val c g' = Config.val c g := by
  have hp : ∀ r, r < n → g'.pstore r = g.pstore r := fun r hr => (hag r hr).1
  unfold Config.val
  congr 1
  · cases hb : c.binaries with
    | none => rfl
    | some r =>
      obtain ⟨hrlt, hbw⟩ := hw.1 r hb
      simp only [Option.map_some']
      rw [(hag r hrlt).2.1]
      congr 1
      exact List.map_congr_left fun b hb2 =>
        bval_agree b n g g' hp (hbw b hb2)
  · cases hi : c.images with
    | none => rfl
    | some r =>
      obtain ⟨hrlt, hiw⟩ := hw.2 r hi
      simp only [Option.map_some']
      rw [(hag r hrlt).2.2]
      congr 1
      exact List.map_congr_left fun i hi2 =>
        ival_agree i n g g' hp (hiw i hi2)

/-- Well-formedness transfers along heap extension (old cells unchanged). -/
theorem Config.wfN_ext {c : Config} {h g : Heap} (hw : Config.wf c h)
    (he : Heap.Ext h g) : Config.wfN c g h.next := by
  refine ⟨fun r hr => ?_, fun r hr => ?_⟩
  · obtain ⟨hlt, hbw⟩ := hw.1 r hr
    exact ⟨hlt, by rw [(he.2 r hlt).2.1]; exact hbw⟩
  · obtain ⟨hlt, hiw⟩ := hw.2 r hr
    exact ⟨hlt, by rw [(he.2 r hlt).2.2]; exact hiw⟩

/-- Mutating any cell at or above the original frontier leaves the
original's value unchanged. -/
theorem Config.val_mutation (c : Config) (h g : Heap) (he : Heap.Ext h g)
    (hw : Config.wf c h) (m : Mut) (ht : h.next ≤ Mut.target m) :
    Config.val c (g.applyMut m) = Config.val c g := by
  refine Config.val_agree c h.next g (g.applyMut m) (fun r hr => ?_)
    (Config.wfN_ext hw he)
  have hne : r ≠ Mut.target m := by omega
  cases m with
  | pset t v =>
    simp only [Mut.target] at hne
    exact ⟨by simp [Heap.applyMut, hne], rfl, rfl⟩
  | bset t v =>
    simp only [Mut.target] at hne
    exact ⟨rfl, by simp [Heap.applyMut, hne], rfl⟩
  | iset t v =>
    simp only [Mut.target] at hne
    exact ⟨rfl, rfl, by simp [Heap.applyMut, hne]⟩

end Krel

namespace Krel

/-- Lemma: `Binary.DeepCopyInto` extends the heap. -/
theorem bdc_ext (b : Binary) (h : Heap) : Heap.Ext h (Binary.deepCopyInto b h).2 := by
  cases hb : b.platforms with
  | none => simp only [Binary.deepCopyInto, hb]; exact ext_refl h
  | some r => simp only [Binary.deepCopyInto, hb]; exact allocP_ext h _

/-- The copy of a binary reads back to the same value as the original. -/
theorem bdc_val (b : Binary) (h : Heap) :
    Binary.val (Binary.deepCopyInto b h).1 (Binary.deepCopyInto b h).2 =
      Binary.val b h := by
  cases hb : b.platforms with
  | none => simp [Binary.deepCopyInto, hb]
  | some r => simp [Binary.deepCopyInto, hb, Binary.val, Heap.allocP]

/-- The copy of a binary only holds a fresh platform reference. -/
theorem bdc_fresh (b : Binary) (h : Heap) :
    ∀ r, (Binary.deepCopyInto b h).1.platforms = some r →
      h.next ≤ r ∧ r < (Binary.deepCopyInto b h).2.next := by
  intro r hr
  cases hb : b.platforms with
  | none =>
    simp only [Binary.deepCopyInto, hb] at hr
    cases hr
  | some r0 =>
    simp only [Binary.deepCopyInto, hb, Heap.allocP, Option.some.injEq] at hr
    subst hr
    constructor
    · exact Nat.le_refl _
    · simp only [Binary.deepCopyInto, hb, Heap.allocP]
      omega

/-- Lemma: `Image.DeepCopyInto` extends the heap. -/
theorem idc_ext (i : Image) (h : Heap) : Heap.Ext h (Image.deepCopyInto i h).2 := by
  cases hi : i.platformType with
  | none => simp only [Image.deepCopyInto, hi]; exact ext_refl h
  | some r => simp only [Image.deepCopyInto, hi]; exact allocP_ext h _

/-- The copy of an image reads back to the same value as the original. -/
theorem idc_val (i : Image) (h : Heap) :
    Image.val (Image.deepCopyInto i h).1 (Image.deepCopyInto i h).2 =
      Image.val i h := by
  cases hi : i.platformType with
  | none => simp [Image.deepCopyInto, hi]
  | some r => simp [Image.deepCopyInto, hi, Image.val, Heap.allocP]

/-- The copy of an image only holds a fresh platform reference. -/
theorem idc_fresh (i : Image) (h : Heap) :
    ∀ r, (Image.deepCopyInto i h).1.platformType = some r →
      h.next ≤ r ∧ r < (Image.deepCopyInto i h).2.next := by
  intro r hr
  cases hi : i.platformType with
  | none =>
    simp only [Image.deepCopyInto, hi] at hr
    cases hr
  | some r0 =>
    simp only [Image.deepCopyInto, hi, Heap.allocP, Option.some.injEq] at hr
    subst hr
    constructor
    · exact Nat.le_refl _
    · simp only [Image.deepCopyInto, hi, Heap.allocP]
      omega

/-- The element-wise binary copy extends the heap. -/
theorem cb_ext (l : List Binary) (h : Heap) : Heap.Ext h (copyBinaries l h).2 := by
  induction l generalizing h with
  | nil => exact ext_refl h
  | cons b bs ih =>
    simp only [copyBinaries]
    exact ext_trans (bdc_ext b h) (ih _)

/-- Every platform reference in the copied binaries is fresh. -/
theorem cb_fresh (l : List Binary) (h : Heap) :
    ∀ b' ∈ (copyBinaries l h).1, ∀ r, b'.platforms = some r →
      h.next ≤ r ∧ r < (copyBinaries l h).2.next := by
  induction l generalizing h with
  | nil => simp [copyBinaries]
  | cons b bs ih =>
    intro b' hb' r hr
    simp only [copyBinaries, List.mem_cons] at hb'
    rcases hb' with rfl | hb'
    · have h1 := bdc_fresh b h r hr
      have h2 := cb_ext bs (Binary.deepCopyInto b h).2
      exact ⟨h1.1, Nat.lt_of_lt_of_le h1.2 h2.1⟩
    · have h1 := ih (Binary.deepCopyInto b h).2 b' hb' r hr
      have h2 := bdc_ext b h
      exact ⟨Nat.le_trans h2.1 h1.1, h1.2⟩

/-- The copied binaries read back, in order, to the original values. -/
theorem cb_vals (l : List Binary) (h : Heap)
    (hl : ∀ b ∈ l, Binary.wfN b h.next) :
    ((copyBinaries l h).1).map (fun b => Binary.val b (copyBinaries l h).2) =
      l.map (fun b => Binary.val b h) := by
  induction l generalizing h with
  | nil => simp [copyBinaries]
  | cons b bs ih =>
    simp only [copyBinaries, List.map_cons]
    congr 1
    · have hwfx : Binary.wfN (Binary.deepCopyInto b h).1
          (Binary.deepCopyInto b h).2.next :=
        fun r hr => (bdc_fresh b h r hr).2
      have hagree : ∀ r, r < (Binary.deepCopyInto b h).2.next →
          ((copyBinaries bs (Binary.deepCopyInto b h).2).2).pstore r =
            ((Binary.deepCopyInto b h).2).pstore r :=
        fun r hr => ((cb_ext bs _).2 r hr).1
      rw [bval_agree _ _ _ _ hagree hwfx, bdc_val]
    · have hbs : ∀ b2 ∈ bs, Binary.wfN b2 (Binary.deepCopyInto b h).2.next :=
        fun b2 hb2 => bwfN_mono (hl b2 (List.mem_cons_of_mem _ hb2)) (bdc_ext b h).1
      rw [ih _ hbs]
      exact List.map_congr_left fun b2 hb2 =>
        bval_agree b2 h.next _ _ (fun r hr => ((bdc_ext b h).2 r hr).1)
          (hl b2 (List.mem_cons_of_mem _ hb2))

/-- The element-wise image copy extends the heap. -/
theorem ci_ext (l : List Image) (h : Heap) : Heap.Ext h (copyImages l h).2 := by
  induction l generalizing h with
  | nil => exact ext_refl h
  | cons i is' ih =>
    simp only [copyImages]
    exact ext_trans (idc_ext i h) (ih _)

/-- Every platform reference in the copied images is fresh. -/
theorem ci_fresh (l : List Image) (h : Heap) :
    ∀ i' ∈ (copyImages l h).1, ∀ r, i'.platformType = some r →
      h.next ≤ r ∧ r < (copyImages l h).2.next := by
  induction l generalizing h with
  | nil => simp [copyImages]
  | cons i is' ih =>
    intro i' hi' r hr
    simp only [copyImages, List.mem_cons] at hi'
    rcases hi' with rfl | hi'
    · have h1 := idc_fresh i h r hr
      have h2 := ci_ext is' (Image.deepCopyInto i h).2
      exact ⟨h1.1, Nat.lt_of_lt_of_le h1.2 h2.1⟩
    · have h1 := ih (Image.deepCopyInto i h).2 i' hi' r hr
      have h2 := idc_ext i h
      exact ⟨Nat.le_trans h2.1 h1.1, h1.2⟩

/-- The copied images read back, in order, to the original values. -/
theorem ci_vals (l : List Image) (h : Heap)
    (hl : ∀ i ∈ l, Image.wfN i h.next) :
    ((copyImages l h).1).map (fun i => Image.val i (copyImages l h).2) =
      l.map (fun i => Image.val i h) := by
  induction l generalizing h with
  | nil => simp [copyImages]
  | cons i is' ih =>
    simp only [copyImages, List.map_cons]
    congr 1
    · have hwfx : Image.wfN (Image.deepCopyInto i h).1
          (Image.deepCopyInto i h).2.next :=
        fun r hr => (idc_fresh i h r hr).2
      have hagree : ∀ r, r < (Image.deepCopyInto i h).2.next →
          ((copyImages is' (Image.deepCopyInto i h).2).2).pstore r =
            ((Image.deepCopyInto i h).2).pstore r :=
        fun r hr => ((ci_ext is' _).2 r hr).1
      rw [ival_agree _ _ _ _ hagree hwfx, idc_val]
    · have his : ∀ i2 ∈ is', Image.wfN i2 (Image.deepCopyInto i h).2.next :=
        fun i2 hi2 => iwfN_mono (hl i2 (List.mem_cons_of_mem _ hi2)) (idc_ext i h).1
      rw [ih _ his]
      exact List.map_congr_left fun i2 hi2 =>
        ival_agree i2 h.next _ _ (fun r hr => ((idc_ext i h).2 r hr).1)
          (hl i2 (List.mem_cons_of_mem _ hi2))

end Krel

namespace Krel

/-- Either stage block extends the heap. -/
theorem binStage_ext (ob : Option Nat) (h : Heap) :
    Heap.Ext h (binariesStage ob h).2 := by
  cases ob with
  | none => exact ext_refl h
  | some r =>
    simp only [binariesStage]
    exact ext_trans (cb_ext _ h) (allocB_ext _ _)

/-- Either stage block extends the heap. -/
theorem imgStage_ext (ob : Option Nat) (h : Heap) :
    Heap.Ext h (imagesStage ob h).2 := by
  cases ob with
  | none => exact ext_refl h
  | some r =>
    simp only [imagesStage]
    exact ext_trans (ci_ext _ h) (allocI_ext _ _)

/-- Characterization of the binaries stage on a non-nil slice: it returns a
fresh slice id whose contents read back (in any further extension of the
heap) to the original deep values, and whose element references are all
fresh. -/
theorem binStage_some (r : Nat) (h : Heap)
    (hbw : ∀ b ∈ h.bstore r, Binary.wfN b h.next) :
    ∃ idB,
      (binariesStage (some r) h).1 = some idB ∧
      h.next ≤ idB ∧ idB < (binariesStage (some r) h).2.next ∧
      (∀ g, Heap.Ext (binariesStage (some r) h).2 g →
        (g.bstore idB).map (fun b => Binary.val b g) =
          (h.bstore r).map (fun b => Binary.val b h)) ∧
      (∀ g, Heap.Ext (binariesStage (some r) h).2 g →
        ∀ b' ∈ g.bstore idB, ∀ rp, b'.platforms = some rp → h.next ≤ rp) := by
  have hext1 := cb_ext (h.bstore r) h
  have hidlt : (copyBinaries (h.bstore r) h).2.next <
      (binariesStage (some r) h).2.next := by
    simp only [binariesStage, Heap.allocB]
    omega
  have hstore : ∀ g, Heap.Ext (binariesStage (some r) h).2 g →
      g.bstore (copyBinaries (h.bstore r) h).2.next =
        (copyBinaries (h.bstore r) h).1 := by
    intro g hg
    have := (hg.2 _ hidlt).2.1
    rw [this]
    simp [binariesStage, Heap.allocB]
  refine ⟨(copyBinaries (h.bstore r) h).2.next, rfl, hext1.1, hidlt, ?_, ?_⟩
  · intro g hg
    rw [hstore g hg]
    have hextg : Heap.Ext (copyBinaries (h.bstore r) h).2 g :=
      ext_trans (allocB_ext _ _) hg
    have : ((copyBinaries (h.bstore r) h).1).map (fun b => Binary.val b g) =
        ((copyBinaries (h.bstore r) h).1).map
          (fun b => Binary.val b (copyBinaries (h.bstore r) h).2) :=
      List.map_congr_left fun b hb =>
        bval_agree b (copyBinaries (h.bstore r) h).2.next _ _
          (fun rp hrp => (hextg.2 rp hrp).1)
          (fun rp hrp => (cb_fresh (h.bstore r) h b hb rp hrp).2)
    rw [this, cb_vals _ _ hbw]
  · intro g hg b' hb' rp hrp
    rw [hstore g hg] at hb'
    exact (cb_fresh (h.bstore r) h b' hb' rp hrp).1

/-- Characterization of the images stage on a non-nil slice. -/
theorem imgStage_some (r : Nat) (h : Heap)
    (hiw : ∀ i ∈ h.istore r, Image.wfN i h.next) :
    ∃ idI,
      (imagesStage (some r) h).1 = some idI ∧
      h.next ≤ idI ∧ idI < (imagesStage (some r) h).2.next ∧
      (∀ g, Heap.Ext (imagesStage (some r) h).2 g →
        (g.istore idI).map (fun i => Image.val i g) =
          (h.istore r).map (fun i => Image.val i h)) ∧
      (∀ g, Heap.Ext (imagesStage (some r) h).2 g →
        ∀ i' ∈ g.istore idI, ∀ rp, i'.platformType = some rp → h.next ≤ rp) := by
  have hext1 := ci_ext (h.istore r) h
  have hidlt : (copyImages (h.istore r) h).2.next <
      (imagesStage (some r) h).2.next := by
    simp only [imagesStage, Heap.allocI]
    omega
  have hstore : ∀ g, Heap.Ext (imagesStage (some r) h).2 g →
      g.istore (copyImages (h.istore r) h).2.next =
        (copyImages (h.istore r) h).1 := by
    intro g hg
    have := (hg.2 _ hidlt).2.2
    rw [this]
    simp [imagesStage, Heap.allocI]
  refine ⟨(copyImages (h.istore r) h).2.next, rfl, hext1.1, hidlt, ?_, ?_⟩
  · intro g hg
    rw [hstore g hg]
    have hextg : Heap.Ext (copyImages (h.istore r) h).2 g :=
      ext_trans (allocI_ext _ _) hg
    have : ((copyImages (h.istore r) h).1).map (fun i => Image.val i g) =
        ((copyImages (h.istore r) h).1).map
          (fun i => Image.val i (copyImages (h.istore r) h).2) :=
      List.map_congr_left fun i hi =>
        ival_agree i (copyImages (h.istore r) h).2.next _ _
          (fun rp hrp => (hextg.2 rp hrp).1)
          (fun rp hrp => (ci_fresh (h.istore r) h i hi rp hrp).2)
    rw [this, ci_vals _ _ hiw]
  · intro g hg i' hi' rp hrp
    rw [hstore g hg] at hi'
    exact (ci_fresh (h.istore r) h i' hi' rp hrp).1

end Krel

/-- C9: for a well-formed `Config`, `DeepCopy` yields a copy whose deep value
(`Binaries` and `Images` lists in order, with each `Binary`'s `Platforms`
and each `Image`'s `PlatformType` list) equals the original's; the copy
operation leaves the original's value unchanged; and any subsequent
mutation of a list reachable from the copy leaves the original's value
unchanged. -/
theorem claim_C9 (c : Krel.Config) (h : Krel.Heap) (hwf : Krel.Config.wf c h) :
    Krel.Config.val (Krel.Config.deepCopy c h).1 (Krel.Config.deepCopy c h).2 =
      Krel.Config.val c h ∧
    Krel.Config.val c (Krel.Config.deepCopy c h).2 = Krel.Config.val c h ∧
    ∀ m : Krel.Mut,
      Krel.Mut.hitsConfig m (Krel.Config.deepCopy c h).1 (Krel.Config.deepCopy c h).2 →
      Krel.Config.val c ((Krel.Config.deepCopy c h).2.applyMut m) =
        Krel.Config.val c (Krel.Config.deepCopy c h).2 := by
  have E1 : Krel.Heap.Ext h (Krel.binariesStage c.binaries h).2 :=
    Krel.binStage_ext c.binaries h
  have E : Krel.Heap.Ext h (Krel.Config.deepCopy c h).2 :=
    Krel.ext_trans E1 (Krel.imgStage_ext c.images (Krel.binariesStage c.binaries h).2)
  have hvalc : Krel.Config.val c (Krel.Config.deepCopy c h).2 = Krel.Config.val c h :=
    Krel.Config.val_agree c h.next h _ E.2 hwf
  have hdc2 : (Krel.Config.deepCopy c h).2 =
      (Krel.imagesStage c.images (Krel.binariesStage c.binaries h).2).2 := rfl
  refine ⟨?_, hvalc, ?_⟩
  · simp only [Krel.Config.val, Krel.ConfigV.mk.injEq]
    refine ⟨rfl, ?_, ?_⟩
    · have hcb : (Krel.Config.deepCopy c h).1.binaries =
          (Krel.binariesStage c.binaries h).1 := rfl
      rw [hcb, hdc2]
      cases hb : c.binaries with
      | none => simp [Krel.binariesStage]
      | some r =>
        obtain ⟨idB, hid, _, _, hvals, _⟩ :=
          Krel.binStage_some r h (fun b hbm => (hwf.1 r hb).2 b hbm)
        rw [hid]
        simp only [Option.map_some']
        exact congrArg some (hvals _ (Krel.imgStage_ext c.images _))
    · have hci : (Krel.Config.deepCopy c h).1.images =
          (Krel.imagesStage c.images (Krel.binariesStage c.binaries h).2).1 := rfl
      rw [hci, hdc2]
      cases hi : c.images with
      | none => simp [Krel.imagesStage]
      | some r =>
        have hrlt : r < h.next := (hwf.2 r hi).1
        have histore : (Krel.binariesStage c.binaries h).2.istore r = h.istore r :=
          (E1.2 r hrlt).2.2
        have hiw1 : ∀ i ∈ (Krel.binariesStage c.binaries h).2.istore r,
            Krel.Image.wfN i (Krel.binariesStage c.binaries h).2.next := by
          rw [histore]
          exact fun i him =>
            Krel.iwfN_mono ((hwf.2 r hi).2 i him) E1.1
        obtain ⟨idI, hid, _, _, hvals, _⟩ :=
          Krel.imgStage_some r (Krel.binariesStage c.binaries h).2 hiw1
        rw [hid]
        simp only [Option.map_some']
        refine congrArg some ?_
        have h2 := hvals _ (Krel.ext_refl _)
        rw [h2, histore]
        exact List.map_congr_left fun i him =>
          Krel.ival_agree i h.next _ _ (fun rp hrp => (E1.2 rp hrp).1)
            ((hwf.2 r hi).2 i him)
  · intro m hm
    refine Krel.Config.val_mutation c h _ E hwf m ?_
    cases m with
    | bset t v =>
      simp only [Krel.Mut.hitsConfig] at hm
      have hcb : (Krel.Config.deepCopy c h).1.binaries =
          (Krel.binariesStage c.binaries h).1 := rfl
      rw [hcb] at hm
      cases hb : c.binaries with
      | none =>
        rw [hb] at hm
        simp [Krel.binariesStage] at hm
      | some r =>
        rw [hb] at hm
        obtain ⟨idB, hid, hle, _, _, _⟩ :=
          Krel.binStage_some r h (fun b hbm => (hwf.1 r hb).2 b hbm)
        rw [hid] at hm
        cases hm
        exact hle
    | iset t v =>
      simp only [Krel.Mut.hitsConfig] at hm
      have hci : (Krel.Config.deepCopy c h).1.images =
          (Krel.imagesStage c.images (Krel.binariesStage c.binaries h).2).1 := rfl
      rw [hci] at hm
      cases hi : c.images with
      | none =>
        rw [hi] at hm
        simp [Krel.imagesStage] at hm
      | some r =>
        rw [hi] at hm
        have hrlt : r < h.next := (hwf.2 r hi).1
        have histore : (Krel.binariesStage c.binaries h).2.istore r = h.istore r :=
          (E1.2 r hrlt).2.2
        have hiw1 : ∀ i ∈ (Krel.binariesStage c.binaries h).2.istore r,
            Krel.Image.wfN i (Krel.binariesStage c.binaries h).2.next := by
          rw [histore]
          exact fun i him =>
            Krel.iwfN_mono ((hwf.2 r hi).2 i him) E1.1
        obtain ⟨idI, hid, hle, _, _, _⟩ :=
          Krel.imgStage_some r (Krel.binariesStage c.binaries h).2 hiw1
        rw [hid] at hm
        cases hm
        exact Nat.le_trans E1.1 hle
    | pset t v =>
      simp only [Krel.Mut.hitsConfig] at hm
      rcases hm with ⟨rb, hrb, b, hbmem, hbp⟩ | ⟨ri, hri, i, himem, hip⟩
      · have hcb : (Krel.Config.deepCopy c h).1.binaries =
            (Krel.binariesStage c.binaries h).1 := rfl
        rw [hcb] at hrb
        rw [hdc2] at hbmem
        cases hb : c.binaries with
        | none =>
          rw [hb] at hrb
          simp [Krel.binariesStage] at hrb
        | some r =>
          rw [hb] at hrb
          rw [hb] at hbmem
          obtain ⟨idB, hid, _, _, _, hfresh⟩ :=
            Krel.binStage_some r h (fun b2 hbm => (hwf.1 r hb).2 b2 hbm)
          rw [hid] at hrb
          cases hrb
          exact hfresh _ (Krel.imgStage_ext c.images _) b hbmem t hbp
      · have hci : (Krel.Config.deepCopy c h).1.images =
            (Krel.imagesStage c.images (Krel.binariesStage c.binaries h).2).1 := rfl
        rw [hci] at hri
        rw [hdc2] at himem
        cases hi : c.images with
        | none =>
          rw [hi] at hri
          simp [Krel.imagesStage] at hri
        | some r =>
          rw [hi] at hri
          rw [hi] at himem
          have hrlt : r < h.next := (hwf.2 r hi).1
          have histore : (Krel.binariesStage c.binaries h).2.istore r = h.istore r :=
            (E1.2 r hrlt).2.2
          have hiw1 : ∀ i2 ∈ (Krel.binariesStage c.binaries h).2.istore r,
              Krel.Image.wfN i2 (Krel.binariesStage c.binaries h).2.next := by
            rw [histore]
            exact fun i2 him =>
              Krel.iwfN_mono ((hwf.2 r hi).2 i2 him) E1.1
          obtain ⟨idI, hid, _, _, _, hfresh⟩ :=
            Krel.imgStage_some r (Krel.binariesStage c.binaries h).2 hiw1
          rw [hid] at hri
          cases hri
          exact Nat.le_trans E1.1 (hfresh _ (Krel.ext_refl _) i himem t hip)

/-- Config `c9` is well formed in `h9`. -/
theorem c9_wf : Krel.Config.wf c9 h9 := by
  constructor
  · intro r hr
    simp only [c9] at hr
    cases hr
    refine ⟨by simp [h9], ?_⟩
    intro b hb
    simp [h9] at hb
    subst hb
    intro rp hrp
    cases hrp
    simp [h9]
  · intro r hr
    simp only [c9] at hr
    cases hr
    refine ⟨by simp [h9], ?_⟩
    intro i hi
    simp [h9] at hi
    subst hi
    intro rp hrp
    cases hrp
    simp [h9]

/-- Closed witness for C9: the copy of `c9` reads back to the original's
value, and clearing the copy's binaries list leaves the original's value
unchanged. -/
theorem claim_C9_witness :
    Krel.Config.val (Krel.Config.deepCopy c9 h9).1 (Krel.Config.deepCopy c9 h9).2 =
      Krel.Config.val c9 h9 ∧
    Krel.Config.val c9
        ((Krel.Config.deepCopy c9 h9).2.applyMut (Krel.Mut.bset 5 [])) =
      Krel.Config.val c9 (Krel.Config.deepCopy c9 h9).2 :=
  ⟨(claim_C9 c9 h9 c9_wf).1,
   (claim_C9 c9 h9 c9_wf).2.2 (Krel.Mut.bset 5 [])
     (by simp only [Krel.Mut.hitsConfig]; decide)⟩
